import Mathlib

/-!
Shallow embedding of the agent orchestration frontend of this repository and
proofs about it.  The main subjects are the workflow chain runner
(`WorkflowRunner` component: `executeStep`, `runWorkflow`, `updateStepStatus`,
`updateStepOutput`), the in-memory storage services (`agentsService`,
`simulationsService`) and the spec-described backend context aggregator.
-/

namespace Urban

/-- Workflow step kinds, from the source type
`type WorkflowStep = 'consulting' | 'simulation' | 'debate' | 'aggregator'`. -/
inductive WorkflowStep where
  | consulting
  | simulation
  | debate
  | aggregator
deriving DecidableEq

/-- Step status, from the source type
`type StepStatus = 'pending' | 'running' | 'completed' | 'error'`. -/
inductive StepStatus where
  | pending
  | running
  | completed
  | error
deriving DecidableEq

/-- Per-step state, from the source `interface StepState` (`status`, `output`,
optional `result`, optional `error`).  The loosely typed `result: any` payload
is modelled as a `String`. -/
structure StepState where
  status : StepStatus
  output : String
  result : Option String
  error : Option String
deriving DecidableEq

/-- The `steps` record of the component: one `StepState` per workflow step,
mirroring `Record<WorkflowStep, StepState>`. -/
structure StepsRecord where
  consulting : StepState
  simulation : StepState
  debate : StepState
  aggregator : StepState
deriving DecidableEq

/-- Read one entry of the steps record (`steps[step]`). -/
def StepsRecord.get (s : StepsRecord) : WorkflowStep → StepState
  | .consulting => s.consulting
  | .simulation => s.simulation
  | .debate => s.debate
  | .aggregator => s.aggregator

/-- Replace one entry of the steps record (`{...prev, [step]: ...}`). -/
def StepsRecord.set (s : StepsRecord) : WorkflowStep → StepState → StepsRecord
  | .consulting, st => { s with consulting := st }
  | .simulation, st => { s with simulation := st }
  | .debate, st => { s with debate := st }
  | .aggregator, st => { s with aggregator := st }

/-- Initial per-step state, from the component initialisation
`{ status: 'pending', output: '' }` (no `result`, no `error`). -/
def initStepState : StepState :=
  { status := .pending, output := "", result := none, error := none }

/-- Initial steps record: every step starts in `initStepState`. -/
def initSteps : StepsRecord :=
  { consulting := initStepState, simulation := initStepState
  , debate := initStepState, aggregator := initStepState }

/-- Embedding of `updateStepOutput` (source lines 78-86): appends a token at
the end of the step's accumulated `output`, leaving all other fields alone. -/
def updateStepOutput (s : StepsRecord) (step : WorkflowStep) (token : String) :
    StepsRecord :=
  s.set step { s.get step with output := (s.get step).output ++ token }

/-- Embedding of `updateStepStatus` (source lines 88-98): sets `status` and
overwrites both `result` and `error` with the given optional arguments (in the
source the spread `{...prev[step], status, result, error}` writes the keys
even when the arguments are `undefined`, so an omitted argument clears the
field). -/
def updateStepStatus (s : StepsRecord) (step : WorkflowStep)
    (status : StepStatus) (result : Option String) (error : Option String) :
    StepsRecord :=
  s.set step { s.get step with status := status, result := result, error := error }

/-- Behaviour of one streamed agent execution, as observed through the
`streamAgentExecution` callbacks: a list of `token` events followed by either
a `complete` event carrying a result or an `error` event carrying a message. -/
structure StepOutcome where
  tokens : List String
  outcome : Except String String

/-- One recorded `updateStepStatus` transition, used to express temporal
properties of a run. -/
structure RunEvent where
  step : WorkflowStep
  status : StepStatus
deriving DecidableEq

/-- Token delivery loop of `executeStep`: each token is appended to the step's
`output` via `updateStepOutput` and to the local accumulator `fullOutput`
(`fullOutput += token`), in delivery order. -/
def deliverTokens (step : WorkflowStep) :
    List String → StepsRecord → String → StepsRecord × String
  | [], s, full => (s, full)
  | t :: ts, s, full => deliverTokens step ts (updateStepOutput s step t) (full ++ t)

/-- Result of one `executeStep` call: the updated steps record, the status
transitions it performed, the locally accumulated `fullOutput`, and the
promise outcome (resolved with the result or rejected with the error). -/
structure ExecResult where
  steps : StepsRecord
  events : List RunEvent
  fullOutput : String
  result : Except String String

/-- Embedding of `executeStep` (source lines 100-184): set the step `running`
(clearing `result`/`error`), deliver the streamed tokens, then on the
`complete` callback set the step `completed` with the result and resolve, and
on the `error` callback set the step to `error` with the message and reject. -/
def executeStep (s : StepsRecord) (step : WorkflowStep) (o : StepOutcome) :
    ExecResult :=
  let s1 := updateStepStatus s step .running none none
  let d := deliverTokens step o.tokens s1 ""
  match o.outcome with
  | .ok r =>
      { steps := updateStepStatus d.1 step .completed (some r) none
      , events := [⟨step, .running⟩, ⟨step, .completed⟩]
      , fullOutput := d.2
      , result := .ok r }
  | .error e =>
      { steps := updateStepStatus d.1 step .error none (some e)
      , events := [⟨step, .running⟩, ⟨step, .error⟩]
      , fullOutput := d.2
      , result := .error e }

/-- The `custom_input` object of each request, from the literal objects built
in `runWorkflow` (source lines 197-270). -/
inductive CustomInput where
  | consultingInput (politicianName : String) (city : String) (initialRequest : String)
  | simulationInput (perspective : String) (city : String) (policyDocument : String)
  | debateInput (rounds : Nat) (focusAreas : List String)
  | aggregatorInput (format : String) (sections : List String)
deriving DecidableEq

/-- Request payload submitted to `streamAgentExecution`, from the literal
objects built in `runWorkflow` (`agent_type`, `description`, `custom_input`,
`stream`; the constant `config` object is omitted as it is identical for all
steps). -/
structure AgentRequest where
  agent_type : String
  description : String
  custom_input : CustomInput
  stream : Bool
deriving DecidableEq

/-- Consulting request (source lines 197-212). -/
def consultingRequest (politicianName policyGoal city : String) : AgentRequest :=
  { agent_type := "CONSULTING"
  , description := "Determine goals and create strategic framework for "
      ++ politicianName ++ "\x27s " ++ policyGoal ++ " initiative in " ++ city
  , custom_input := .consultingInput politicianName city policyGoal
  , stream := true }

/-- Simulation request for one perspective (source lines 219-232). -/
def simulationRequest (perspective policyGoal city policyDocument : String) :
    AgentRequest :=
  { agent_type := "SIMULATION"
  , description := "Simulate " ++ perspective ++ " impact for " ++ policyGoal
      ++ " in " ++ city
  , custom_input := .simulationInput perspective city policyDocument
  , stream := true }

/-- Debate request (source lines 237-249). -/
def debateRequest (policyGoal : String) (perspectives : List String) :
    AgentRequest :=
  { agent_type := "DEBATE"
  , description := "Analyze pros and cons of " ++ policyGoal ++ " initiative"
  , custom_input := .debateInput 3 perspectives
  , stream := true }

/-- Aggregator request (source lines 253-270). -/
def aggregatorRequest (policyGoal : String) : AgentRequest :=
  { agent_type := "AGGREGATOR"
  , description := "Compile comprehensive report for " ++ policyGoal ++ " initiative"
  , custom_input := .aggregatorInput "PDF"
      ["executive_summary", "simulations", "debate", "recommendations"]
  , stream := true }

/-- The workflow input state variables read by `runWorkflow`. -/
structure WorkflowInput where
  politicianName : String
  policyGoal : String
  city : String
  policyDocument : String
  simulationPerspective : List String

/-- The ordered sequence of `(step, request)` submissions `runWorkflow`
performs when nothing fails: consulting, then one simulation per selected
perspective, then debate, then aggregator.  Each request is the literal
object built at the corresponding call site in the source; every request is a
function of the input state variables only. -/
def plan (inp : WorkflowInput) : List (WorkflowStep × AgentRequest) :=
  (WorkflowStep.consulting,
      consultingRequest inp.politicianName inp.policyGoal inp.city) ::
    (inp.simulationPerspective.map (fun p =>
        (WorkflowStep.simulation,
          simulationRequest p inp.policyGoal inp.city inp.policyDocument)) ++
      [(WorkflowStep.debate, debateRequest inp.policyGoal inp.simulationPerspective),
       (WorkflowStep.aggregator, aggregatorRequest inp.policyGoal)])

/-- Observable result of one `runWorkflow` call: the final steps record, the
ordered status transitions, the ordered submissions actually performed,
whether every awaited step resolved (`ok`), and whether the input validation
at the top of `runWorkflow` passed (`validated`). -/
structure RunResult where
  steps : StepsRecord
  events : List RunEvent
  submissions : List (WorkflowStep × AgentRequest)
  ok : Bool
  validated : Bool
deriving DecidableEq

/-- Sequential await loop of `runWorkflow`: execute each planned step in
order; a resolved promise continues with the next step, a rejected promise
propagates to the surrounding `try`/`catch` so no later step is started.  The
environment `env` supplies the streamed behaviour of the `i`-th submission. -/
def runSteps (env : Nat → StepOutcome) :
    StepsRecord → List (WorkflowStep × AgentRequest) → Nat → RunResult
  | s, [], _ =>
      { steps := s, events := [], submissions := [], ok := true, validated := true }
  | s, (w, req) :: rest, i =>
      let ex := executeStep s w (env i)
      match ex.result with
      | .ok _ =>
          let r := runSteps env ex.steps rest (i + 1)
          { steps := r.steps, events := ex.events ++ r.events
          , submissions := (w, req) :: r.submissions
          , ok := r.ok, validated := true }
      | .error _ =>
          { steps := ex.steps, events := ex.events
          , submissions := [(w, req)], ok := false, validated := true }

/-- Embedding of `runWorkflow` (source lines 186-280): if any of the three
required inputs is the empty string (falsy in the source guard
`if (!politicianName || !policyGoal || !city)`), alert and return without
submitting anything; otherwise run the planned submissions sequentially,
halting at the first rejection. -/
def runWorkflow (inp : WorkflowInput) (env : Nat → StepOutcome) : RunResult :=
  if inp.politicianName.isEmpty || inp.policyGoal.isEmpty || inp.city.isEmpty then
    { steps := initSteps, events := [], submissions := [], ok := true
    , validated := false }
  else
    runSteps env initSteps (plan inp) 0

/-- Concatenation of a token list, in delivery order. -/
def concatTokens : List String → String
  | [] => ""
  | t :: ts => t ++ concatTokens ts

/-- Terminal statuses of a step (`completed` or `error`). -/
def isTerminal : StepStatus → Bool
  | .completed => true
  | .error => true
  | _ => false

/-- The subsequence of statuses a given step was set to during a run. -/
def statusTrace (events : List RunEvent) (w : WorkflowStep) : List StepStatus :=
  events.filterMap (fun e => if e.step = w then some e.status else none)

/-- Full status history of a step over a run: the initial `pending` followed
by every status it was set to, in order. -/
def statusHistory (r : RunResult) (w : WorkflowStep) : List StepStatus :=
  .pending :: statusTrace r.events w

/-- Monotonicity check of a status history: no terminal status is ever
followed by a further status. -/
def monotonicStatuses : List StepStatus → Bool
  | [] => true
  | [_] => true
  | a :: b :: rest => !isTerminal a && monotonicStatuses (b :: rest)

/-- Sequencing check over the recorded status transitions: from an idle chain
only a `running` transition may occur (starting that step), and while a step
is running the only possible transition is that same step reaching a terminal
status.  This holds exactly when no two steps are ever running at once and
every started step terminates before the next one starts. -/
def wellSequenced : Option WorkflowStep → List RunEvent → Bool
  | none, [] => true
  | none, e :: rest =>
      decide (e.status = StepStatus.running) && wellSequenced (some e.step) rest
  | some _, [] => false
  | some w, e :: rest =>
      decide (e.step = w) && isTerminal e.status && wellSequenced none rest

/-- Position of each step in the declared chain order. -/
def orderIdx : WorkflowStep → Nat
  | .consulting => 0
  | .simulation => 1
  | .debate => 2
  | .aggregator => 3

/-- Mutual-exclusion check for a step state: `result` and `error` are never
both populated, a `completed` step has its `result` populated and `error`
unset, and an `error` step has its `error` populated and `result` unset. -/
def resultErrorExclusive (st : StepState) : Bool :=
  !(st.result.isSome && st.error.isSome) &&
    (match st.status with
     | .completed => st.result.isSome && st.error.isNone
     | .error => st.error.isSome && st.result.isNone
     | _ => true)

/-- Stored agent record, from the objects kept in the module-level
`agentsStorage` array of the storage service (the `create` fallback builds
`id`, `status`, `createdAt`, `updatedAt` plus the caller-supplied fields; the
loosely typed caller fields are modelled by the representative `name` and
`description` fields). -/
structure AgentRecord where
  id : String
  name : String
  description : String
  status : String
  createdAt : String
  updatedAt : String
deriving DecidableEq

/-- Stored simulation record, from the objects kept in the module-level
`simulationsStorage` array (`create` builds `id`, `status := 'PENDING'`,
`createdAt`, `results := null`, `metrics := null` plus caller fields,
modelled by the representative `name` field). -/
structure SimRecord where
  id : String
  name : String
  status : String
  createdAt : String
  results : Option String
  metrics : Option String
deriving DecidableEq

/-- Embedding of `agentsService.get`: `Promise.resolve(agentsStorage.find(a =>
a.id === id))` — the promise always fulfills, with the found record or with
`undefined` (`none`) when no record matches; it never rejects. -/
def agentsService_get (storage : List AgentRecord) (id : String) :
    Except String (Option AgentRecord) :=
  Except.ok (storage.find? (fun a => a.id == id))

/-- Embedding of `simulationsService.get`: `Promise.resolve(
simulationsStorage.find(s => s.id === id))` — always fulfills, never
rejects. -/
def simulationsService_get (storage : List SimRecord) (id : String) :
    Except String (Option SimRecord) :=
  Except.ok (storage.find? (fun s => s.id == id))

/-- Embedding of JavaScript `Array.prototype.findIndex`: index of the first
element satisfying the predicate (`none` models the `-1` return). -/
def findIndex (p : AgentRecord → Bool) : List AgentRecord → Option Nat
  | [] => none
  | a :: rest => if p a then some 0 else (findIndex p rest).map (· + 1)

/-- In-place mutation `agentsStorage[index].status = 'ARCHIVED'` performed by
`agentsService.delete`: the entry at the index has only its `status` field
replaced; every other entry and every other field is untouched. -/
def archiveAt : List AgentRecord → Nat → List AgentRecord
  | [], _ => []
  | a :: rest, 0 => { a with status := "ARCHIVED" } :: rest
  | a :: rest, Nat.succ n => a :: archiveAt rest n

/-- Embedding of `agentsService.delete` (source lines 262-270): find the
first index whose record has the requested id; if none, throw
`Agent not found` leaving the storage unchanged; otherwise set that record's
`status` to `ARCHIVED` and fulfill.  Returns the promise outcome together
with the post-state of `agentsStorage`. -/
def agentsService_delete (storage : List AgentRecord) (id : String) :
    Except String Unit × List AgentRecord :=
  match findIndex (fun a => a.id == id) storage with
  | none => (Except.error "Agent not found", storage)
  | some i => (Except.ok (), archiveAt storage i)

/-- Capacity of the context aggregator, per the spec (`N = 10`). -/
def aggregatorCapacity : Nat := 10

/-- Modelled from the spec: the backend Context Aggregator component is not
under `src/` (only its frontend callers are present), so its `record`
operation is modelled from the spec:  the aggregator keeps per agent kind an
ordered list of the most recent `N = 10` retained outputs; recording a new
entry appends it at the newest end and, when the capacity is exceeded, evicts
from the oldest end (strict insertion-order FIFO). -/
def recordEntry (entries : List String) (entry : String) : List String :=
  let appended := entries ++ [entry]
  if aggregatorCapacity < appended.length then
    appended.drop (appended.length - aggregatorCapacity)
  else
    appended

/-- Concrete stored simulation record used to evaluate the services. -/
def demoSim : SimRecord :=
  { id := "sim-1", name := "baseline", status := "PENDING", createdAt := "t0"
  , results := none, metrics := none }

/-- Concrete stored agent record used to evaluate the services. -/
def demoAgent : AgentRecord :=
  { id := "agent-1", name := "consulting helper", description := "demo"
  , status := "ACTIVE", createdAt := "t0", updatedAt := "t0" }

/-- Terminal status an outcome produces for the executed step. -/
def termStatus (o : StepOutcome) : StepStatus :=
  match o.outcome with
  | .ok _ => .completed
  | .error _ => .error

/-- Terminal step state fields an outcome produces for the executed step:
the resulting `result` field and the resulting `error` field. -/
def termFields (o : StepOutcome) : Option String × Option String :=
  match o.outcome with
  | .ok r => (some r, none)
  | .error e => (none, some e)

lemma get_set_same (s : StepsRecord) (w : WorkflowStep) (st : StepState) :
    (s.set w st).get w = st := by
  cases w <;> rfl

lemma get_set_other (s : StepsRecord) {v w : WorkflowStep} (st : StepState)
    (h : v ≠ w) : (s.set w st).get v = s.get v := by
  cases w <;> cases v <;> first | rfl | exact absurd rfl h

lemma updateStepOutput_get_self (s : StepsRecord) (w : WorkflowStep) (t : String) :
    (updateStepOutput s w t).get w
      = { s.get w with output := (s.get w).output ++ t } := by
  simp [updateStepOutput, get_set_same]

lemma updateStepOutput_get_other (s : StepsRecord) {v w : WorkflowStep}
    (t : String) (h : v ≠ w) : (updateStepOutput s w t).get v = s.get v := by
  simp [updateStepOutput, get_set_other _ _ h]

lemma updateStepStatus_get_self (s : StepsRecord) (w : WorkflowStep)
    (status : StepStatus) (result error : Option String) :
    (updateStepStatus s w status result error).get w
      = { s.get w with status := status, result := result, error := error } := by
  simp [updateStepStatus, get_set_same]

lemma updateStepStatus_get_other (s : StepsRecord) {v w : WorkflowStep}
    (status : StepStatus) (result error : Option String) (h : v ≠ w) :
    (updateStepStatus s w status result error).get v = s.get v := by
  simp [updateStepStatus, get_set_other _ _ h]

lemma deliverTokens_get_self (w : WorkflowStep) (toks : List String) :
    ∀ (s : StepsRecord) (full : String),
      ((deliverTokens w toks s full).1.get w)
        = { s.get w with output := (s.get w).output ++ concatTokens toks } := by
  induction toks with
  | nil =>
      intro s full
      simp [deliverTokens, concatTokens, String.append_empty]
  | cons t ts ih =>
      intro s full
      rw [deliverTokens, ih, updateStepOutput_get_self]
      simp [concatTokens, String.append_assoc]

lemma deliverTokens_get_other (w : WorkflowStep) (toks : List String) :
    ∀ (s : StepsRecord) (full : String) {v : WorkflowStep}, v ≠ w →
      (deliverTokens w toks s full).1.get v = s.get v := by
  induction toks with
  | nil => intro s full v _; rfl
  | cons t ts ih =>
      intro s full v h
      rw [deliverTokens, ih _ _ h, updateStepOutput_get_other _ _ h]

lemma deliverTokens_full (w : WorkflowStep) (toks : List String) :
    ∀ (s : StepsRecord) (full : String),
      (deliverTokens w toks s full).2 = full ++ concatTokens toks := by
  induction toks with
  | nil => intro s full; simp [deliverTokens, concatTokens, String.append_empty]
  | cons t ts ih =>
      intro s full
      rw [deliverTokens, ih]
      simp [concatTokens, String.append_assoc]

lemma executeStep_get_self (s : StepsRecord) (w : WorkflowStep) (o : StepOutcome) :
    (executeStep s w o).steps.get w
      = { status := termStatus o
        , output := (s.get w).output ++ concatTokens o.tokens
        , result := (termFields o).1
        , error := (termFields o).2 } := by
  cases h : o.outcome with
  | ok r =>
      simp only [executeStep, h, termStatus, termFields, updateStepStatus_get_self,
        deliverTokens_get_self, updateStepStatus_get_self]
  | error e =>
      simp only [executeStep, h, termStatus, termFields, updateStepStatus_get_self,
        deliverTokens_get_self, updateStepStatus_get_self]

lemma executeStep_get_other (s : StepsRecord) {v w : WorkflowStep}
    (o : StepOutcome) (h : v ≠ w) :
    (executeStep s w o).steps.get v = s.get v := by
  cases ho : o.outcome with
  | ok r =>
      simp only [executeStep, ho, updateStepStatus_get_other _ _ _ _ h,
        deliverTokens_get_other _ _ _ _ h]
  | error e =>
      simp only [executeStep, ho, updateStepStatus_get_other _ _ _ _ h,
        deliverTokens_get_other _ _ _ _ h]

lemma executeStep_fullOutput (s : StepsRecord) (w : WorkflowStep) (o : StepOutcome) :
    (executeStep s w o).fullOutput = concatTokens o.tokens := by
  cases ho : o.outcome with
  | ok r => simp [executeStep, ho, deliverTokens_full, String.empty_append]
  | error e => simp [executeStep, ho, deliverTokens_full, String.empty_append]

lemma executeStep_events (s : StepsRecord) (w : WorkflowStep) (o : StepOutcome) :
    (executeStep s w o).events = [⟨w, .running⟩, ⟨w, termStatus o⟩] := by
  cases ho : o.outcome with
  | ok r => simp [executeStep, ho, termStatus]
  | error e => simp [executeStep, ho, termStatus]

lemma executeStep_result (s : StepsRecord) (w : WorkflowStep) (o : StepOutcome) :
    (executeStep s w o).result = o.outcome := by
  cases ho : o.outcome with
  | ok r => simp [executeStep, ho]
  | error e => simp [executeStep, ho]

lemma exclusive_executeStep (s : StepsRecord) (w : WorkflowStep)
    (o : StepOutcome) (v : WorkflowStep)
    (h : resultErrorExclusive (s.get v) = true) :
    resultErrorExclusive ((executeStep s w o).steps.get v) = true := by
  by_cases hv : v = w
  · subst hv
    rw [executeStep_get_self]
    cases ho : o.outcome <;> simp [termStatus, termFields, ho, resultErrorExclusive]
  · rw [executeStep_get_other _ _ hv]
    exact h

lemma exclusive_runSteps (env : Nat → StepOutcome)
    (items : List (WorkflowStep × AgentRequest)) :
    ∀ (s : StepsRecord) (i : Nat),
      (∀ v, resultErrorExclusive (s.get v) = true) →
      ∀ v, resultErrorExclusive ((runSteps env s items i).steps.get v) = true := by
  induction items with
  | nil => intro s i hs v; exact hs v
  | cons item rest ih =>
      intro s i hs v
      obtain ⟨w, req⟩ := item
      rw [runSteps]
      rcases hout : (executeStep s w (env i)).result with e | r
      · simp only [hout]
        exact exclusive_executeStep s w (env i) v (hs v)
      · simp only [hout]
        exact ih _ _ (fun u => exclusive_executeStep s w (env i) u (hs u)) v

lemma exclusive_init : ∀ v, resultErrorExclusive (initSteps.get v) = true := by
  intro v
  cases v <;> rfl

/-- Claim C2: once a step reaches a terminal state, exactly one of its
`result` and `error` fields is populated — completion sets `status`
`completed` with `result` set and `error` cleared, failure sets `status`
`error` with `error` set and `result` cleared, and the two fields are never
both populated in any state of any run. -/
theorem step_result_error_mutually_exclusive
    (inp : WorkflowInput) (env : Nat → StepOutcome) (v : WorkflowStep) :
    resultErrorExclusive ((runWorkflow inp env).steps.get v) = true := by
  rw [runWorkflow]
  split
  · exact exclusive_init v
  · exact exclusive_runSteps env (plan inp) initSteps 0 exclusive_init v

lemma statusTrace_append (l1 l2 : List RunEvent) (w : WorkflowStep) :
    statusTrace (l1 ++ l2) w = statusTrace l1 w ++ statusTrace l2 w := by
  simp [statusTrace, List.filterMap_append]

lemma statusTrace_exec (s : StepsRecord) (w v : WorkflowStep) (o : StepOutcome) :
    statusTrace (executeStep s w o).events v
      = if w = v then [StepStatus.running, termStatus o] else [] := by
  rw [executeStep_events]
  by_cases h : w = v <;> simp [statusTrace, h]

lemma runSteps_wellSequenced (env : Nat → StepOutcome)
    (items : List (WorkflowStep × AgentRequest)) :
    ∀ (s : StepsRecord) (i : Nat),
      wellSequenced none (runSteps env s items i).events = true := by
  induction items with
  | nil => intro s i; rfl
  | cons item rest ih =>
      intro s i
      obtain ⟨w, req⟩ := item
      rw [runSteps]
      rcases hout : (executeStep s w (env i)).result with e | r
      · simp only [hout]
        show wellSequenced none (executeStep s w (env i)).events = true
        rw [executeStep_events]
        cases ho : (env i).outcome <;> simp [wellSequenced, termStatus, ho, isTerminal]
      · simp only [hout]
        show wellSequenced none
          ((executeStep s w (env i)).events
            ++ (runSteps env (executeStep s w (env i)).steps rest (i + 1)).events) = true
        rw [executeStep_events]
        cases ho : (env i).outcome <;>
          simp [wellSequenced, termStatus, ho, isTerminal, ih]

lemma runSteps_submissions_take (env : Nat → StepOutcome)
    (items : List (WorkflowStep × AgentRequest)) :
    ∀ (s : StepsRecord) (i : Nat),
      ∃ k, (runSteps env s items i).submissions = items.take k := by
  induction items with
  | nil => intro s i; exact ⟨0, rfl⟩
  | cons item rest ih =>
      intro s i
      obtain ⟨w, req⟩ := item
      rw [runSteps]
      rcases hout : (executeStep s w (env i)).result with e | r
      · simp only [hout]
        exact ⟨1, rfl⟩
      · simp only [hout]
        obtain ⟨k, hk⟩ := ih (executeStep s w (env i)).steps (i + 1)
        exact ⟨k + 1, by simp [List.take_succ_cons, hk]⟩

lemma runSteps_trace_nil (env : Nat → StepOutcome)
    (items : List (WorkflowStep × AgentRequest)) :
    ∀ (s : StepsRecord) (i : Nat) {w : WorkflowStep},
      w ∉ items.map Prod.fst →
      statusTrace (runSteps env s items i).events w = [] := by
  induction items with
  | nil => intro s i w _; rfl
  | cons item rest ih =>
      intro s i w hw
      obtain ⟨v, req⟩ := item
      have hvw : v ≠ w := by
        intro h; exact hw (by simp [h])
      have hrest : w ∉ rest.map Prod.fst := by
        intro h; exact hw (by simp [h])
      rw [runSteps]
      rcases hout : (executeStep s v (env i)).result with e | r
      · simp only [hout]
        show statusTrace (executeStep s v (env i)).events w = []
        rw [statusTrace_exec]
        simp [hvw]
      · simp only [hout]
        show statusTrace
          ((executeStep s v (env i)).events
            ++ (runSteps env (executeStep s v (env i)).steps rest (i + 1)).events) w = []
        rw [statusTrace_append, statusTrace_exec, ih _ _ hrest]
        simp [hvw]

lemma runSteps_trace_monotonic (env : Nat → StepOutcome) (w : WorkflowStep)
    (items : List (WorkflowStep × AgentRequest)) :
    ∀ (s : StepsRecord) (i : Nat),
      items.countP (fun x => decide (x.1 = w)) ≤ 1 →
      monotonicStatuses
        (.pending :: statusTrace (runSteps env s items i).events w) = true := by
  induction items with
  | nil => intro s i _; rfl
  | cons item rest ih =>
      intro s i hc
      obtain ⟨v, req⟩ := item
      rw [runSteps]
      by_cases hvw : v = w
      · subst hvw
        have hc0 : rest.countP (fun x => decide (x.1 = v)) = 0 := by
          have hp : decide ((v, req).1 = v) = true := by simp
          rw [List.countP_cons, if_pos hp] at hc
          omega
        have hrest : v ∉ rest.map Prod.fst := by
          intro hmem
          obtain ⟨x, hx, hfst⟩ := List.mem_map.mp hmem
          have := List.countP_eq_zero.mp hc0 x hx
          simp [hfst] at this
        rcases hout : (executeStep s v (env i)).result with e | r
        · simp only [hout]
          show monotonicStatuses
            (.pending :: statusTrace (executeStep s v (env i)).events v) = true
          rw [statusTrace_exec]
          simp [monotonicStatuses, isTerminal]
        · simp only [hout]
          show monotonicStatuses
            (.pending :: statusTrace
              ((executeStep s v (env i)).events
                ++ (runSteps env (executeStep s v (env i)).steps rest (i + 1)).events)
              v) = true
          rw [statusTrace_append, statusTrace_exec,
            runSteps_trace_nil env rest _ _ hrest]
          simp [monotonicStatuses, isTerminal]
      · have hc' : rest.countP (fun x => decide (x.1 = w)) ≤ 1 := by
          rw [List.countP_cons] at hc
          omega
        rcases hout : (executeStep s v (env i)).result with e | r
        · simp only [hout]
          show monotonicStatuses
            (.pending :: statusTrace (executeStep s v (env i)).events w) = true
          rw [statusTrace_exec]
          simp [hvw, monotonicStatuses]
        · simp only [hout]
          show monotonicStatuses
            (.pending :: statusTrace
              ((executeStep s v (env i)).events
                ++ (runSteps env (executeStep s v (env i)).steps rest (i + 1)).events)
              w) = true
          rw [statusTrace_append, statusTrace_exec]
          simp only [hvw, if_false, List.nil_append]
          exact ih _ _ hc'

lemma sim_entries_map_fst (ps : List String) (g : String → AgentRequest) :
    (ps.map (fun p => (WorkflowStep.simulation, g p))).map Prod.fst
      = List.replicate ps.length WorkflowStep.simulation := by
  induction ps with
  | nil => rfl
  | cons a t ih =>
      rw [List.map_cons, List.map_cons, List.length_cons, List.replicate_succ]
      exact congrArg (WorkflowStep.simulation :: ·) ih

lemma plan_map_fst (inp : WorkflowInput) :
    (plan inp).map Prod.fst
      = WorkflowStep.consulting ::
          (List.replicate inp.simulationPerspective.length WorkflowStep.simulation
            ++ [WorkflowStep.debate, WorkflowStep.aggregator]) := by
  rw [plan, List.map_cons, List.map_append, sim_entries_map_fst]
  rfl

lemma countP_const_list {α : Type} (b : Bool) :
    ∀ l : List α, l.countP (fun _ => b) = if b then l.length else 0 := by
  intro l
  induction l with
  | nil => simp
  | cons a t ih =>
      rw [List.countP_cons, ih]
      cases b <;> simp

lemma plan_countP (inp : WorkflowInput) (w : WorkflowStep) :
    (plan inp).countP (fun x => decide (x.1 = w))
      = if w = .simulation then inp.simulationPerspective.length else 1 := by
  cases w <;>
    simp [plan, List.countP_cons, List.countP_append, List.countP_map,
      Function.comp, countP_const_list]

/-- Claim C5 (amended): every step's status history is monotonic — it starts
`pending` and never leaves a terminal state — for every step other than the
simulation step unconditionally, and for the simulation step whenever at most
one simulation perspective is selected.  (With two or more selected
perspectives the source re-runs the simulation step once per perspective,
setting a `completed` step back to `running`; see the counterexample.) -/
theorem step_status_monotonic
    (inp : WorkflowInput) (env : Nat → StepOutcome) (w : WorkflowStep)
    (h : w ≠ .simulation ∨ inp.simulationPerspective.length ≤ 1) :
    monotonicStatuses (statusHistory (runWorkflow inp env) w) = true := by
  rw [runWorkflow, statusHistory]
  split
  · rfl
  · apply runSteps_trace_monotonic
    rw [plan_countP]
    by_cases hw : w = .simulation
    · rcases h with h | h
      · exact absurd hw h
      · simpa [hw] using h
    · simp [hw]

/-- Claim C5 (counterexample): with two simulation perspectives selected and
every execution succeeding, the simulation step's status history is
`pending, running, completed, running, completed` — it leaves the terminal
`completed` state and returns to `running`, so the status state machine of
the claim is violated. -/
theorem step_status_monotonic_counterexample :
    statusHistory
        (runWorkflow
          { politicianName := "Mayor Smith", policyGoal := "transit"
          , city := "San Francisco", policyDocument := ""
          , simulationPerspective := ["comprehensive", "traffic"] }
          (fun _ => { tokens := [], outcome := .ok "done" }))
        .simulation
      = [.pending, .running, .completed, .running, .completed]
    ∧ monotonicStatuses
        (statusHistory
          (runWorkflow
            { politicianName := "Mayor Smith", policyGoal := "transit"
            , city := "San Francisco", policyDocument := ""
            , simulationPerspective := ["comprehensive", "traffic"] }
            (fun _ => { tokens := [], outcome := .ok "done" }))
          .simulation) = false := by
  constructor <;> rfl

/-- Claim C4: the chain executes strictly sequentially in the declared order.
The recorded status transitions are well sequenced — from an idle chain only
a step start occurs, and a started step reaches a terminal status before
anything else happens, so no two steps are ever running at once and each step
starts only after the previous one terminated — and the submitted step
sequence is a prefix of the declared order: consulting, then the simulation
runs, then debate, then aggregator. -/
theorem steps_execute_sequentially_in_order
    (inp : WorkflowInput) (env : Nat → StepOutcome) :
    wellSequenced none (runWorkflow inp env).events = true
      ∧ ∃ k, (runWorkflow inp env).submissions.map Prod.fst
          = (WorkflowStep.consulting ::
              (List.replicate inp.simulationPerspective.length WorkflowStep.simulation
                ++ [WorkflowStep.debate, WorkflowStep.aggregator])).take k := by
  rw [runWorkflow]
  split
  · exact ⟨rfl, 0, rfl⟩
  · refine ⟨runSteps_wellSequenced env (plan inp) initSteps 0, ?_⟩
    obtain ⟨k, hk⟩ := runSteps_submissions_take env (plan inp) initSteps 0
    refine ⟨k, ?_⟩
    rw [hk, List.map_take, plan_map_fst]

lemma runSteps_halt (env : Nat → StepOutcome)
    (items : List (WorkflowStep × AgentRequest)) :
    ∀ (s : StepsRecord) (i : Nat),
      (runSteps env s items i).ok = false →
      ∃ w req e,
        (runSteps env s items i).submissions.getLast? = some (w, req)
          ∧ ((runSteps env s items i).steps.get w).status = .error
          ∧ ((runSteps env s items i).steps.get w).error = some e
          ∧ ((runSteps env s items i).steps.get w).result = none := by
  induction items with
  | nil =>
      intro s i h
      exact absurd h (by rw [runSteps]; simp)
  | cons item rest ih =>
      intro s i h
      obtain ⟨w, req⟩ := item
      rw [runSteps] at h ⊢
      rcases hout : (executeStep s w (env i)).result with e | r
      · simp only [hout] at h ⊢
        have hoc : (env i).outcome = .error e := by
          have hres := executeStep_result s w (env i)
          rw [hres] at hout
          exact hout
        have hstate : (executeStep s w (env i)).steps.get w
            = { status := .error
              , output := (s.get w).output ++ concatTokens (env i).tokens
              , result := none, error := some e } := by
          rw [executeStep_get_self]
          simp [termStatus, termFields, hoc]
        exact ⟨w, req, e, rfl, by rw [hstate], by rw [hstate], by rw [hstate]⟩
      · simp only [hout] at h ⊢
        obtain ⟨w', req', e', h1, h2, h3, h4⟩ :=
          ih (executeStep s w (env i)).steps (i + 1) h
        refine ⟨w', req', e', ?_, h2, h3, h4⟩
        cases hsub :
            (runSteps env (executeStep s w (env i)).steps rest (i + 1)).submissions with
        | nil => rw [hsub] at h1; cases h1
        | cons b t =>
            rw [hsub] at h1
            show ((w, req) :: b :: t).getLast? = some (w', req')
            rw [List.getLast?_cons_cons]
            exact h1

lemma runSteps_untouched (env : Nat → StepOutcome)
    (items : List (WorkflowStep × AgentRequest)) :
    ∀ (s : StepsRecord) (i : Nat) (v : WorkflowStep),
      v ∉ (runSteps env s items i).submissions.map Prod.fst →
      (runSteps env s items i).steps.get v = s.get v := by
  induction items with
  | nil => intro s i v _; rfl
  | cons item rest ih =>
      intro s i v hv
      obtain ⟨w, req⟩ := item
      rw [runSteps] at hv ⊢
      rcases hout : (executeStep s w (env i)).result with e | r
      · simp only [hout] at hv ⊢
        have hvw : v ≠ w := by
          intro hh
          subst hh
          exact hv (by simp)
        exact executeStep_get_other s (env i) hvw
      · simp only [hout] at hv ⊢
        have hvw : v ≠ w := by
          intro hh
          subst hh
          exact hv (by simp)
        have hrest : v ∉
            (runSteps env (executeStep s w (env i)).steps rest (i + 1)).submissions.map
              Prod.fst := by
          intro hh
          exact hv (by simp [hh])
        rw [ih _ _ _ hrest, executeStep_get_other _ _ hvw]

lemma pairwise_true_rel {α : Type} (R : α → α → Prop) (hR : ∀ a b, R a b) :
    ∀ l : List α, l.Pairwise R := by
  intro l
  induction l with
  | nil => exact .nil
  | cons a t ih => exact .cons (fun b _ => hR a b) ih

lemma pairwise_replicate_of_rel {α : Type} {R : α → α → Prop} {x : α}
    (h : R x x) : ∀ n, (List.replicate n x).Pairwise R := by
  intro n
  induction n with
  | zero => exact .nil
  | succ n ih =>
      rw [List.replicate_succ]
      refine .cons (fun b hb => ?_) ih
      rw [List.eq_of_mem_replicate hb]
      exact h

lemma pairwise_planFst (inp : WorkflowInput) :
    ((plan inp).map Prod.fst).Pairwise (fun a b => orderIdx a ≤ orderIdx b) := by
  rw [plan_map_fst]
  refine List.Pairwise.cons (fun b _ => Nat.zero_le _) ?_
  refine List.pairwise_append.mpr ⟨?_, ?_, ?_⟩
  · exact pairwise_replicate_of_rel (R := fun a b => orderIdx a ≤ orderIdx b)
      (Nat.le_refl _) _
  · refine List.Pairwise.cons ?_ (List.pairwise_singleton _ _)
    intro b hb
    rw [List.mem_singleton.mp hb]
    exact Nat.le_succ 2
  · intro x hx y hy
    rw [List.eq_of_mem_replicate hx]
    rcases List.mem_cons.mp hy with hy | hy
    · rw [hy]; exact Nat.le_of_lt (Nat.lt_succ_self 1)
    · rw [List.mem_singleton.mp hy]
      show orderIdx .simulation ≤ orderIdx .aggregator
      show (1 : Nat) ≤ 3
      omega

lemma getLast?_map_some {α β : Type} (f : α → β) :
    ∀ {l : List α} {a : α}, l.getLast? = some a → (l.map f).getLast? = some (f a) := by
  intro l
  induction l with
  | nil => intro a h; cases h
  | cons x t ih =>
      intro a h
      cases t with
      | nil =>
          simp only [List.getLast?_singleton, Option.some.injEq] at h
          rw [h]
          rfl
      | cons y u =>
          rw [List.getLast?_cons_cons] at h
          rw [List.map_cons, List.map_cons, List.getLast?_cons_cons]
          rw [← List.map_cons]
          exact ih h

lemma pairwise_le_getLast {l : List WorkflowStep}
    (hp : l.Pairwise (fun a b => orderIdx a ≤ orderIdx b)) {w : WorkflowStep}
    (hl : l.getLast? = some w) : ∀ v ∈ l, orderIdx v ≤ orderIdx w := by
  intro v hv
  have hmem : w ∈ l.getLast? := Option.mem_def.mpr hl
  have hdecomp := List.dropLast_append_getLast? w hmem
  rw [← hdecomp] at hp hv
  rcases List.mem_append.mp hv with h | h
  · exact (List.pairwise_append.mp hp).2.2 v h w (List.mem_singleton_self w)
  · rw [List.mem_singleton.mp h]

/-- Claim C1: if some step's execution rejects, the chain stops immediately
at that step — the failing step is the last submission, its recorded state is
the terminal `error` state with the failure message recorded and no result,
and every step later in the declared order was never started and keeps its
initial `pending` state. -/
theorem chain_halts_at_failing_step
    (inp : WorkflowInput) (env : Nat → StepOutcome)
    (h : (runWorkflow inp env).ok = false) :
    ∃ w req e,
      (runWorkflow inp env).submissions.getLast? = some (w, req)
        ∧ ((runWorkflow inp env).steps.get w).status = .error
        ∧ ((runWorkflow inp env).steps.get w).error = some e
        ∧ ((runWorkflow inp env).steps.get w).result = none
        ∧ ∀ v, orderIdx w < orderIdx v →
            v ∉ (runWorkflow inp env).submissions.map Prod.fst
              ∧ (runWorkflow inp env).steps.get v = initStepState := by
  rw [runWorkflow] at h ⊢
  split at h
  · cases h
  · rw [if_neg (by assumption)]
    obtain ⟨w, req, e, h1, h2, h3, h4⟩ :=
      runSteps_halt env (plan inp) initSteps 0 h
    refine ⟨w, req, e, h1, h2, h3, h4, ?_⟩
    intro v hv
    have hbound : ∀ u ∈ (runSteps env initSteps (plan inp) 0).submissions.map
        Prod.fst, orderIdx u ≤ orderIdx w := by
      obtain ⟨k, hk⟩ := runSteps_submissions_take env (plan inp) initSteps 0
      have hpw : ((runSteps env initSteps (plan inp) 0).submissions.map
          Prod.fst).Pairwise (fun a b => orderIdx a ≤ orderIdx b) := by
        rw [hk, List.map_take]
        exact (pairwise_planFst inp).sublist (List.take_sublist _ _)
      have hlast : ((runSteps env initSteps (plan inp) 0).submissions.map
          Prod.fst).getLast? = some w := by
        have := getLast?_map_some Prod.fst h1
        exact this
      exact pairwise_le_getLast hpw hlast
    have hnot : v ∉ (runSteps env initSteps (plan inp) 0).submissions.map
        Prod.fst := by
      intro hmem
      have := hbound v hmem
      omega
    refine ⟨hnot, ?_⟩
    rw [runSteps_untouched env (plan inp) initSteps 0 v hnot]
    cases v <;> rfl

/-- Claim C7: a chain submission with a missing required input (empty
politician name, policy goal, or city) is rejected synchronously by the guard
at the top of `runWorkflow`: nothing is submitted, no status transition
happens, and every step's status remains `pending`. -/
theorem validation_blocks_all_steps
    (inp : WorkflowInput) (env : Nat → StepOutcome)
    (h : (inp.politicianName.isEmpty || inp.policyGoal.isEmpty
          || inp.city.isEmpty) = true) :
    (runWorkflow inp env).validated = false
      ∧ (runWorkflow inp env).submissions = []
      ∧ (runWorkflow inp env).events = []
      ∧ ∀ w, ((runWorkflow inp env).steps.get w).status = .pending := by
  have hr : runWorkflow inp env
      = { steps := initSteps, events := [], submissions := [], ok := true
        , validated := false } := by
    rw [runWorkflow, if_pos h]
  rw [hr]
  refine ⟨rfl, rfl, rfl, ?_⟩
  intro w
  cases w <;> rfl

/-- Claim C8 (amended): every request the chain submits is determined by the
user-provided input state alone — the submissions are a prefix of the plan
computed from the inputs, so no step's request includes any earlier step's
result; cross-step data flow, if any, happens on the server side, not in the
submitted payloads. -/
theorem requests_determined_by_inputs_only
    (inp : WorkflowInput) (env : Nat → StepOutcome) :
    ∃ k, (runWorkflow inp env).submissions = (plan inp).take k := by
  rw [runWorkflow]
  split
  · exact ⟨0, rfl⟩
  · exact runSteps_submissions_take env (plan inp) initSteps 0

/-- Claim C8 (counterexample): two runs that differ only in the simulation
and debate step results produce identical submission lists — in particular
the debate request does not contain the simulation step's result and the
aggregator request does not contain the debate step's result, refuting the
claim that each request includes the preceding step's literal output. -/
theorem later_requests_omit_prior_results_counterexample :
    ((runWorkflow
        { politicianName := "Mayor Smith", policyGoal := "transit"
        , city := "San Francisco", policyDocument := ""
        , simulationPerspective := ["comprehensive"] }
        (fun i => if i = 1 then { tokens := [], outcome := .ok "SIM_RESULT_ONE" }
          else if i = 2 then { tokens := [], outcome := .ok "DEBATE_RESULT_ONE" }
          else { tokens := [], outcome := .ok "done" })).steps.simulation.result
      = some "SIM_RESULT_ONE")
    ∧ ((runWorkflow
        { politicianName := "Mayor Smith", policyGoal := "transit"
        , city := "San Francisco", policyDocument := ""
        , simulationPerspective := ["comprehensive"] }
        (fun i => if i = 1 then { tokens := [], outcome := .ok "SIM_RESULT_TWO" }
          else if i = 2 then { tokens := [], outcome := .ok "DEBATE_RESULT_TWO" }
          else { tokens := [], outcome := .ok "done" })).steps.simulation.result
      = some "SIM_RESULT_TWO")
    ∧ (runWorkflow
        { politicianName := "Mayor Smith", policyGoal := "transit"
        , city := "San Francisco", policyDocument := ""
        , simulationPerspective := ["comprehensive"] }
        (fun i => if i = 1 then { tokens := [], outcome := .ok "SIM_RESULT_ONE" }
          else if i = 2 then { tokens := [], outcome := .ok "DEBATE_RESULT_ONE" }
          else { tokens := [], outcome := .ok "done" })).submissions
      = (runWorkflow
          { politicianName := "Mayor Smith", policyGoal := "transit"
          , city := "San Francisco", policyDocument := ""
          , simulationPerspective := ["comprehensive"] }
          (fun i => if i = 1 then { tokens := [], outcome := .ok "SIM_RESULT_TWO" }
            else if i = 2 then { tokens := [], outcome := .ok "DEBATE_RESULT_TWO" }
            else { tokens := [], outcome := .ok "done" })).submissions := by
  refine ⟨rfl, rfl, rfl⟩

/-- Claim C3: processing the delivered token sequence appends each token at
the end of the step's accumulated output buffer, so the buffer grows by
exactly the concatenation of the tokens in delivery order, and the
subscriber-side `fullOutput` accumulator equals that same concatenation. -/
theorem output_accumulates_tokens_in_order
    (s : StepsRecord) (w : WorkflowStep) (o : StepOutcome) :
    (((executeStep s w o).steps.get w).output
        = (s.get w).output ++ concatTokens o.tokens)
      ∧ (executeStep s w o).fullOutput = concatTokens o.tokens := by
  constructor
  · rw [executeStep_get_self]
  · exact executeStep_fullOutput s w o

lemma recordEntry_length (l : List String) (e : String) (h : l.length ≤ 10) :
    (recordEntry l e).length ≤ 10 := by
  simp only [recordEntry, aggregatorCapacity]
  split
  · rw [List.length_drop]
    simp only [List.length_append, List.length_singleton]
    omega
  · next hc =>
      simp only [List.length_append, List.length_singleton] at hc ⊢
      omega

lemma foldl_recordEntry_bound :
    ∀ (inserts : List String) (l : List String), l.length ≤ 10 →
      (List.foldl recordEntry l inserts).length ≤ 10 := by
  intro inserts
  induction inserts with
  | nil => intro l h; simpa using h
  | cons a t ih =>
      intro l h
      rw [List.foldl_cons]
      exact ih _ (recordEntry_length l a h)

/-- Claim C6: the context aggregator keeps at most 10 entries per kind — any
sequence of recorded entries starting from an empty list stays within the
capacity — and recording into a full list evicts exactly the oldest entry
(strict insertion-order FIFO), while recording below capacity just appends. -/
theorem aggregator_keeps_most_recent_ten
    (entries : List String) (e : String) (inserts : List String) :
    (List.foldl recordEntry [] inserts).length ≤ aggregatorCapacity
      ∧ (entries.length = aggregatorCapacity →
          recordEntry entries e = entries.tail ++ [e])
      ∧ (entries.length < aggregatorCapacity →
          recordEntry entries e = entries ++ [e]) := by
  refine ⟨foldl_recordEntry_bound inserts [] (by simp [aggregatorCapacity]), ?_, ?_⟩
  · intro h
    rw [aggregatorCapacity] at h
    simp only [recordEntry, aggregatorCapacity]
    rw [if_pos (by simp [h])]
    have hlen : (entries ++ [e]).length - 10 = 1 := by simp [h]
    rw [hlen]
    cases entries with
    | nil => simp at h
    | cons a t => simp
  · intro h
    rw [aggregatorCapacity] at h
    simp only [recordEntry, aggregatorCapacity]
    rw [if_neg (by simp; omega)]

/-- Witness for claim C6 at concrete inputs: a full list of ten entries
evicts exactly its oldest entry, a shorter list just appends, and a concrete
insert sequence stays within the capacity. -/
theorem aggregator_keeps_most_recent_ten_witness :
    recordEntry ["0", "1", "2", "3", "4", "5", "6", "7", "8", "9"] "10"
        = ["1", "2", "3", "4", "5", "6", "7", "8", "9", "10"]
      ∧ recordEntry ["0", "1"] "2" = ["0", "1", "2"]
      ∧ (List.foldl recordEntry [] ["a", "b", "c"]).length ≤ aggregatorCapacity := by
  refine ⟨?_, ?_, ?_⟩
  · have h := (aggregator_keeps_most_recent_ten
      ["0", "1", "2", "3", "4", "5", "6", "7", "8", "9"] "10" []).2.1 (by decide)
    rw [h]
    rfl
  · have h := (aggregator_keeps_most_recent_ten ["0", "1"] "2" []).2.2 (by decide)
    rw [h]
    rfl
  · exact (aggregator_keeps_most_recent_ten [] "" ["a", "b", "c"]).1

/-- Claim C9 (amended): looking up an id that is not in the store resolves
successfully with no record (`undefined`), rather than failing with a lookup
error; looking up a stored id resolves with that record (whose `id` matches),
so its status and error classification are retrievable. -/
theorem lookup_by_id_behavior
    (sims : List SimRecord) (agents : List AgentRecord) (id : String) :
    ((∀ r ∈ sims, r.id ≠ id) → simulationsService_get sims id = Except.ok none)
      ∧ ((∀ r ∈ agents, r.id ≠ id) → agentsService_get agents id = Except.ok none)
      ∧ (∀ r, sims.find? (fun s => s.id == id) = some r →
          simulationsService_get sims id = Except.ok (some r) ∧ r.id = id)
      ∧ (∀ r, agents.find? (fun a => a.id == id) = some r →
          agentsService_get agents id = Except.ok (some r) ∧ r.id = id) := by
  refine ⟨?_, ?_, ?_, ?_⟩
  · intro h
    unfold simulationsService_get
    rw [List.find?_eq_none.mpr (fun x hx => by simpa using h x hx)]
  · intro h
    unfold agentsService_get
    rw [List.find?_eq_none.mpr (fun x hx => by simpa using h x hx)]
  · intro r hr
    refine ⟨?_, by simpa using List.find?_some hr⟩
    unfold simulationsService_get
    rw [hr]
  · intro r hr
    refine ⟨?_, by simpa using List.find?_some hr⟩
    unfold agentsService_get
    rw [hr]

/-- Witness for claim C9 (amended) at concrete stores: a missing id resolves
with no record for both services, and a stored id resolves with the stored
record. -/
theorem lookup_by_id_behavior_witness :
    simulationsService_get [demoSim] "missing" = Except.ok none
      ∧ agentsService_get [demoAgent] "missing" = Except.ok none
      ∧ simulationsService_get [demoSim] "sim-1" = Except.ok (some demoSim) := by
  refine ⟨?_, ?_, ?_⟩
  · exact (lookup_by_id_behavior [demoSim] [demoAgent] "missing").1 (by decide)
  · exact (lookup_by_id_behavior [demoSim] [demoAgent] "missing").2.1 (by decide)
  · exact ((lookup_by_id_behavior [demoSim] [demoAgent] "sim-1").2.2.1 demoSim
      (by decide)).1

/-- Claim C9 (counterexample): looking up an id absent from a non-empty store
does not fail — the promise fulfills (`Except.ok`) carrying `undefined`
(`none`) instead of reporting a lookup error, for both the simulations and
the agents service. -/
theorem lookup_missing_id_counterexample :
    simulationsService_get [demoSim] "no-such-id" = Except.ok none
      ∧ (simulationsService_get [demoSim] "no-such-id").isOk = true
      ∧ agentsService_get [demoAgent] "no-such-id" = Except.ok none
      ∧ (agentsService_get [demoAgent] "no-such-id").isOk = true := by
  exact ⟨rfl, rfl, rfl, rfl⟩

lemma findIndex_lt_length (p : AgentRecord → Bool) :
    ∀ (l : List AgentRecord) (i : Nat), findIndex p l = some i → i < l.length := by
  intro l
  induction l with
  | nil => intro i h; cases h
  | cons a t ih =>
      intro i h
      rw [findIndex] at h
      split at h
      · cases h
        simp
      · cases hf : findIndex p t with
        | none => rw [hf] at h; cases h
        | some i' =>
            rw [hf] at h
            cases h
            have := ih i' hf
            simp
            omega

lemma findIndex_eq_none (p : AgentRecord → Bool) :
    ∀ l : List AgentRecord, (∀ r ∈ l, ¬ p r = true) → findIndex p l = none := by
  intro l
  induction l with
  | nil => intro _; rfl
  | cons a t ih =>
      intro h
      rw [findIndex, if_neg (h a (by simp)), ih (fun r hr => h r (by simp [hr]))]
      rfl

lemma archiveAt_length :
    ∀ (l : List AgentRecord) (i : Nat), (archiveAt l i).length = l.length := by
  intro l
  induction l with
  | nil => intro i; rfl
  | cons a t ih =>
      intro i
      cases i with
      | zero => rfl
      | succ i' => simp [archiveAt, ih i']

lemma archiveAt_getElem_other :
    ∀ (l : List AgentRecord) (i j : Nat), j ≠ i →
      (archiveAt l i)[j]? = l[j]? := by
  intro l
  induction l with
  | nil => intro i j _; rfl
  | cons a t ih =>
      intro i j hji
      cases i with
      | zero =>
          cases j with
          | zero => exact absurd rfl hji
          | succ j' => simp [archiveAt]
      | succ i' =>
          cases j with
          | zero => simp [archiveAt]
          | succ j' =>
              have hne : j' ≠ i' := fun hh => hji (by rw [hh])
              simp [archiveAt, ih i' j' hne]

lemma archiveAt_getElem_self :
    ∀ (l : List AgentRecord) (i : Nat), i < l.length →
      ∃ a, l[i]? = some a
        ∧ (archiveAt l i)[i]? = some { a with status := "ARCHIVED" } := by
  intro l
  induction l with
  | nil => intro i h; simp at h
  | cons a t ih =>
      intro i h
      cases i with
      | zero => exact ⟨a, by simp, by simp [archiveAt]⟩
      | succ i' =>
          obtain ⟨b, hb1, hb2⟩ := ih i' (by simpa using h)
          refine ⟨b, ?_, ?_⟩
          · simpa using hb1
          · simpa [archiveAt] using hb2

/-- Claim C10: `agentsService.delete` never removes a record.  For an id not
in the store it throws `Agent not found` and leaves the storage entirely
unchanged; for a stored id it fulfills, keeps the array length, leaves every
other entry untouched, and replaces only the `status` field of the first
matching entry with `ARCHIVED`, keeping all its other fields. -/
theorem delete_archives_and_never_removes
    (storage : List AgentRecord) (id : String) :
    ((∀ r ∈ storage, r.id ≠ id) →
        agentsService_delete storage id = (Except.error "Agent not found", storage))
      ∧ (∀ i, findIndex (fun a => a.id == id) storage = some i →
          (agentsService_delete storage id).1 = Except.ok ()
            ∧ ((agentsService_delete storage id).2).length = storage.length
            ∧ (∀ j, j ≠ i →
                ((agentsService_delete storage id).2)[j]? = storage[j]?)
            ∧ ∃ a, storage[i]? = some a
                ∧ ((agentsService_delete storage id).2)[i]?
                    = some { a with status := "ARCHIVED" }) := by
  constructor
  · intro h
    unfold agentsService_delete
    rw [findIndex_eq_none _ _ (fun r hr => by simpa using h r hr)]
  · intro i h
    unfold agentsService_delete
    rw [h]
    exact ⟨rfl, archiveAt_length _ _,
      fun j hj => archiveAt_getElem_other _ _ _ hj,
      archiveAt_getElem_self _ _ (findIndex_lt_length _ _ _ h)⟩

/-- Witness for claim C10 at a concrete store: deleting a missing id throws
and leaves the store unchanged, and deleting a stored id archives exactly
that record in place. -/
theorem delete_archives_and_never_removes_witness :
    agentsService_delete [demoAgent] "missing"
        = (Except.error "Agent not found", [demoAgent])
      ∧ (agentsService_delete [demoAgent] "agent-1").1 = Except.ok ()
      ∧ ((agentsService_delete [demoAgent] "agent-1").2).length = 1
      ∧ ((agentsService_delete [demoAgent] "agent-1").2)[0]?
          = some { demoAgent with status := "ARCHIVED" } := by
  refine ⟨?_, ?_, ?_, ?_⟩
  · exact (delete_archives_and_never_removes [demoAgent] "missing").1 (by decide)
  · exact ((delete_archives_and_never_removes [demoAgent] "agent-1").2 0
      (by decide)).1
  · exact ((delete_archives_and_never_removes [demoAgent] "agent-1").2 0
      (by decide)).2.1
  · have h := ((delete_archives_and_never_removes [demoAgent] "agent-1").2 0
      (by decide)).2.2.2
    obtain ⟨a, ha1, ha2⟩ := h
    have haeq : demoAgent = a := by
      simpa using ha1
    rw [← haeq] at ha2
    exact ha2

/-- Witness for claim C1 at a concrete input: an environment whose first
execution rejects makes the chain halt at the consulting step with the error
recorded and every later step untouched. -/
theorem chain_halts_at_failing_step_witness :
    ∃ w req e,
      (runWorkflow
          { politicianName := "Mayor Smith", policyGoal := "transit"
          , city := "San Francisco", policyDocument := ""
          , simulationPerspective := ["comprehensive"] }
          (fun _ => { tokens := ["t"], outcome := .error "boom" })).submissions.getLast?
          = some (w, req)
        ∧ ((runWorkflow
            { politicianName := "Mayor Smith", policyGoal := "transit"
            , city := "San Francisco", policyDocument := ""
            , simulationPerspective := ["comprehensive"] }
            (fun _ => { tokens := ["t"], outcome := .error "boom" })).steps.get w).status
          = .error
        ∧ ((runWorkflow
            { politicianName := "Mayor Smith", policyGoal := "transit"
            , city := "San Francisco", policyDocument := ""
            , simulationPerspective := ["comprehensive"] }
            (fun _ => { tokens := ["t"], outcome := .error "boom" })).steps.get w).error
          = some e
        ∧ ((runWorkflow
            { politicianName := "Mayor Smith", policyGoal := "transit"
            , city := "San Francisco", policyDocument := ""
            , simulationPerspective := ["comprehensive"] }
            (fun _ => { tokens := ["t"], outcome := .error "boom" })).steps.get w).result
          = none
        ∧ ∀ v, orderIdx w < orderIdx v →
            v ∉ (runWorkflow
                { politicianName := "Mayor Smith", policyGoal := "transit"
                , city := "San Francisco", policyDocument := ""
                , simulationPerspective := ["comprehensive"] }
                (fun _ => { tokens := ["t"], outcome := .error "boom" })).submissions.map
                Prod.fst
              ∧ (runWorkflow
                  { politicianName := "Mayor Smith", policyGoal := "transit"
                  , city := "San Francisco", policyDocument := ""
                  , simulationPerspective := ["comprehensive"] }
                  (fun _ => { tokens := ["t"], outcome := .error "boom" })).steps.get v
                = initStepState :=
  chain_halts_at_failing_step
    { politicianName := "Mayor Smith", policyGoal := "transit"
    , city := "San Francisco", policyDocument := ""
    , simulationPerspective := ["comprehensive"] }
    (fun _ => { tokens := ["t"], outcome := .error "boom" }) (by decide)

/-- Witness for claim C5 (amended) at a concrete input: the debate step's
status history is monotonic even when two simulation perspectives are
selected. -/
theorem step_status_monotonic_witness :
    monotonicStatuses
        (statusHistory
          (runWorkflow
            { politicianName := "Mayor Smith", policyGoal := "transit"
            , city := "San Francisco", policyDocument := ""
            , simulationPerspective := ["comprehensive", "traffic"] }
            (fun _ => { tokens := [], outcome := .ok "done" }))
          .debate) = true :=
  step_status_monotonic
    { politicianName := "Mayor Smith", policyGoal := "transit"
    , city := "San Francisco", policyDocument := ""
    , simulationPerspective := ["comprehensive", "traffic"] }
    (fun _ => { tokens := [], outcome := .ok "done" })
    .debate (Or.inl (by decide))

/-- Witness for claim C7 at a concrete input: with an empty politician name
nothing is submitted and every step stays `pending`. -/
theorem validation_blocks_all_steps_witness :
    (runWorkflow
        { politicianName := "", policyGoal := "transit", city := "San Francisco"
        , policyDocument := "", simulationPerspective := ["comprehensive"] }
        (fun _ => { tokens := [], outcome := .ok "done" })).validated = false
      ∧ (runWorkflow
          { politicianName := "", policyGoal := "transit", city := "San Francisco"
          , policyDocument := "", simulationPerspective := ["comprehensive"] }
          (fun _ => { tokens := [], outcome := .ok "done" })).submissions = []
      ∧ (runWorkflow
          { politicianName := "", policyGoal := "transit", city := "San Francisco"
          , policyDocument := "", simulationPerspective := ["comprehensive"] }
          (fun _ => { tokens := [], outcome := .ok "done" })).events = []
      ∧ ((runWorkflow
          { politicianName := "", policyGoal := "transit", city := "San Francisco"
          , policyDocument := "", simulationPerspective := ["comprehensive"] }
          (fun _ => { tokens := [], outcome := .ok "done" })).steps.get
          .simulation).status = .pending := by
  have h := validation_blocks_all_steps
    { politicianName := "", policyGoal := "transit", city := "San Francisco"
    , policyDocument := "", simulationPerspective := ["comprehensive"] }
    (fun _ => { tokens := [], outcome := .ok "done" }) (by decide)
  exact ⟨h.1, h.2.1, h.2.2.1, h.2.2.2 .simulation⟩

end Urban
